import Mathlib

/-!
Verification of the rigid-registration core of the shoulder repository
(file scapula/helpers.py): geometry primitives, brute-force nearest
neighbor, the Kabsch best-fit solver, the ICP loop and transform
averaging.

Point clouds are embedded as functions from a coordinate index (Fin 3)
and a column index (unbounded, with the column count carried separately)
to scalars; homogeneous 4xN data adds a fourth row.  Homogeneous 4x4
transforms are Mathlib matrices.  numpy.linalg.svd is modelled as an
oracle: a function producing the three factors, constrained where needed
by the IsSVD predicate (orthogonal factors, ordered nonnegative singular
values, exact factorization).  Exceptions raised by numpy (zero slice
step, integer division by zero, fancy-index out of bounds, SVD
non-convergence on empty input) are embedded as typed Except errors.

Definitions are polymorphic in a linear ordered field so that concrete
runs can be evaluated over the rationals; the averaging statistics,
which use arccos and square roots, are specialized to the reals.
-/

set_option maxHeartbeats 1000000

open Matrix

namespace Shoulder

abbrev M3 (K : Type) := Matrix (Fin 3) (Fin 3) K

abbrev M4 (K : Type) := Matrix (Fin 4) (Fin 4) K

abbrev Cloud (K : Type) := Fin 3 → ℕ → K

abbrev HCloud (K : Type) := Fin 4 → ℕ → K

variable {K : Type} [LinearOrderedField K]

/-- The 3x3 rotation block T[:3, :3] of a homogeneous 4x4 matrix. -/
def rot (T : M4 K) : M3 K :=
  Matrix.of fun i j => T i.castSucc j.castSucc

/-- The translation column T[:3, 3] of a homogeneous 4x4 matrix. -/
def trans (T : M4 K) : Fin 3 → K :=
  fun i => T i.castSucc (Fin.last 3)

/-- Assemble a homogeneous 4x4 matrix from a rotation block and a
translation column, with bottom row (0, 0, 0, 1); this is the layout
np.eye(4) with the two blocks overwritten, and also the layout of
np.concatenate([np.concatenate([r, t], axis=1), [[0, 0, 0, 1]]]). -/
def homOf (r : M3 K) (t : Fin 3 → K) : M4 K :=
  Matrix.of fun i j =>
    if hi : (i : ℕ) < 3 then
      if hj : (j : ℕ) < 3 then r ⟨i, hi⟩ ⟨j, hj⟩ else t ⟨i, hi⟩
    else if (j : ℕ) = 3 then 1 else 0

/-- np.sum((A) ** 2): sum of the squares of all 16 entries. -/
def sumSq4 (A : M4 K) : K :=
  ∑ i : Fin 4, ∑ j : Fin 4, (A i j) ^ 2

/-- A predicate expressing that T is a well-formed rigid transform:
orthonormal rotation block with determinant +1 and bottom row
(0, 0, 0, 1). -/
@[reducible] def IsRigid (T : M4 K) : Prop :=
  (rot T)ᵀ * rot T = 1 ∧ (rot T).det = 1 ∧ T = homOf (rot T) (trans T)

/-- The type of the np.linalg.svd oracle on 3x3 matrices: it returns
the factors (u, singular values, v transpose). -/
abbrev SvdFn (K : Type) := M3 K → M3 K × (Fin 3 → K) × M3 K

/-- The contract of np.linalg.svd at a given input: orthogonal factors,
an exact factorization h = u @ diag(s) @ vT, and nonnegative singular
values in decreasing order. -/
@[reducible] def IsSVD (h u : M3 K) (s : Fin 3 → K) (vT : M3 K) : Prop :=
  uᵀ * u = 1 ∧ vT * vTᵀ = 1 ∧ u * Matrix.diagonal s * vT = h ∧
    (∀ i, 0 ≤ s i) ∧ (∀ i j : Fin 3, i ≤ j → s j ≤ s i)

/-- Positive definiteness of a 3x3 matrix, stated via the quadratic
form (no star-ring machinery, so it applies over any linear ordered
field). -/
def QuadPos (A : M3 K) : Prop :=
  ∀ x : Fin 3 → K, x ≠ 0 → 0 < x ⬝ᵥ (A *ᵥ x)

/-- MatrixHelpers.transpose_homogenous_matrix: out = np.eye(4);
out[:3, :3] = M[:3, :3].T; out[:3, 3] = -out[:3, :3] @ M[:3, 3]. -/
def transpose_homogenous_matrix (T : M4 K) : M4 K :=
  homOf (rot T)ᵀ (fun i => -(((rot T)ᵀ *ᵥ trans T) i))

/-- MatrixHelpers.subtract_vectors on a homogeneous cloud and a single
homogeneous column (broadcast): out = a - b; out[3, :] = 1. -/
def subtract_vectors (a : HCloud K) (b : Fin 4 → K) : HCloud K :=
  fun i j => if (i : ℕ) = 3 then 1 else a i j - b i

/-- View a 3xN cloud as homogeneous 4xN data with fourth row 1 (the
fourth row of the input is never observed by the embedded code: it is
overwritten by subtract_vectors before use). -/
def liftCloud (p : Cloud K) : HCloud K :=
  fun i j => if hi : (i : ℕ) < 3 then p ⟨i, hi⟩ j else 1

/-- The homogeneous mean column pts1_mean: the centroid with a 1
appended. -/
def homMean (v : Fin 3 → K) : Fin 4 → K :=
  fun i => if hi : (i : ℕ) < 3 then v ⟨i, hi⟩ else 1

/-- np.mean(points, axis=1) over the first n columns. -/
def centroid (n : ℕ) (p : Cloud K) : Fin 3 → K :=
  fun i => (∑ j ∈ Finset.range n, p i j) / (n : K)

/-- The centered cloud points - centroid. -/
def centered (n : ℕ) (p : Cloud K) : Cloud K :=
  fun i j => p i j - centroid n p i

/-- The cross-covariance h = centered1 @ centered2.T of
MatrixHelpers.compute_best_fit_transformation. -/
def crossCov (n : ℕ) (p q : Cloud K) : M3 K :=
  Matrix.of fun i k => ∑ j ∈ Finset.range n, centered n p i j * centered n q k j

/-- MatrixHelpers.compute_best_fit_transformation: centroids,
centering, cross-covariance, SVD, r = (u @ v_T).T,
t = centroid2 - r @ centroid1, assembled as a homogeneous matrix.
The code performs no validation of the number of points n. -/
def compute_best_fit_transformation (svd : SvdFn K) (n : ℕ) (p q : Cloud K) : M4 K :=
  let h := crossCov n p q
  let u := (svd h).1
  let vT := (svd h).2.2
  let r := (u * vT)ᵀ
  let t := fun i => centroid n q i - (r *ᵥ centroid n p) i
  homOf r t

/-- The squared-distance row tp of MatrixHelpers.nearest_neighbor:
tp[j] = sum over coordinates of (dst[:, j] - src[:, i]) ** 2. -/
def nnTp (src dst : Cloud K) (i : ℕ) : ℕ → K :=
  fun j => ∑ k : Fin 3, (dst k j - src k i) ^ 2

/-- Scan of np.min / np.argmin over candidates 0..m: value and first
index attaining the minimum (a later candidate replaces the incumbent
only when strictly smaller). -/
def argminAux (tp : ℕ → K) : ℕ → ℕ × K
  | 0 => (0, tp 0)
  | m + 1 =>
    let r := argminAux tp m
    if tp (m + 1) < r.2 then (m + 1, tp (m + 1)) else r

/-- The typed failure modes of the embedded core (each corresponds to a
concrete numpy exception site in helpers.py). -/
inductive RegError
  | emptyReferenceSet
  | sliceStepZero
  | divisionByZero
  | indexOutOfBounds
  | numericDegeneracy
deriving DecidableEq

/-- MatrixHelpers.nearest_neighbor on n source and m destination
points: per source point, the minimum squared distance and the first
index attaining it.  With no source points the loop body never runs and
empty arrays are returned; with source points but an empty destination
set, np.min raises on a zero-size reduction (embedded as
emptyReferenceSet). -/
def nearest_neighbor (n m : ℕ) (src dst : Cloud K) :
    Except RegError ((ℕ → K) × (ℕ → ℕ)) :=
  if n = 0 then .ok (fun _ => 0, fun _ => 0)
  else if m = 0 then .error .emptyReferenceSet
  else .ok (fun i => (argminAux (nnTp src dst i) (m - 1)).2,
            fun i => (argminAux (nnTp src dst i) (m - 1)).1)

/-- (rt @ homogeneousData)[:3, :]. -/
def applyRT (rt : M4 K) (h : HCloud K) : Cloud K :=
  fun i j => ∑ k : Fin 4, rt i.castSucc k * h k j

/-- Column slicing data[:, ::k] (keeps columns 0, k, 2k, ...). -/
def sliceCols {r A : Type} (k : ℕ) (p : r → ℕ → A) : r → ℕ → A :=
  fun i j => p i (j * k)

/-- The number of columns of data[:, ::k] when data has n columns and
k is at least 1: ceil(n / k). -/
def sliceCount (n k : ℕ) : ℕ :=
  (n + k - 1) / k

/-- One iteration's incremental transform rt_step as a function of the
accumulated transform rt, from the body of MatrixHelpers.icp:
pts1 = (rt @ pts1_zeroed[:, ::k1])[:3, :]; indices either shared
(np.arange) or from the nearest-neighbor scan; then
compute_best_fit_transformation(pts1, pts2[:, indices]). -/
def icpStepFn (svd : SvdFn K) (share : Bool) (nPts mPts : ℕ)
    (zs : HCloud K) (p2s : Cloud K) : M4 K → M4 K :=
  fun rt =>
    let pts1 := applyRT rt zs
    let idx : ℕ → ℕ :=
      if share then id else fun i => (argminAux (nnTp pts1 p2s i) (mPts - 1)).1
    compute_best_fit_transformation svd nPts pts1 (fun c j => p2s c (idx j))

/-- The iteration loop of MatrixHelpers.icp, with fuel
max_iterations: rt_step is computed from the current rt, the
accumulated transform becomes rt_step @ rt, the convergence metric is
np.sum((np.eye(4) - rt_step) ** 2), and the loop breaks when
|prev_error - squared_error| < tolerance.  prev_error starts at np.inf,
modelled as none (the first pass can never break).  The second
component counts the loop passes executed. -/
def icpLoop (f : M4 K → M4 K) (tol : K) : ℕ → M4 K → Option K → M4 K × ℕ
  | 0, rt, _ => (rt, 0)
  | fuel + 1, rt, prev =>
    let step := f rt
    let rt2 := step * rt
    let e := sumSq4 (1 - step)
    match prev with
    | none =>
      let r := icpLoop f tol fuel rt2 (some e)
      (r.1, r.2 + 1)
    | some pe =>
      if |pe - e| < tol then (rt2, 1)
      else
        let r := icpLoop f tol fuel rt2 (some e)
        (r.1, r.2 + 1)

/-- Line 153 of helpers.py: rt[:3, 3] -= (rt[:3, :3] @ pts1_mean[:3, :])[:3, 0],
the reprojection of the accumulated transform to the initial pose. -/
def finalize (rt : M4 K) (mean : Fin 3 → K) : M4 K :=
  Matrix.of fun i j =>
    if (i : ℕ) < 3 ∧ (j : ℕ) = 3 then rt i j - ∑ k : Fin 3, rt i k.castSucc * mean k
    else rt i j

/-- MatrixHelpers.icp, returning the final transform together with the
number of loop passes executed.  The error cascade mirrors the numpy
exception sites in order: integer division by a zero
nb_points_required (lines 122-123), a zero slice step for points2
(line 125), a zero slice step for points1 in the first pass (line 129)
and a shared index out of bounds in pts2[:, indices] (line 138); the
last two can only fire when the loop actually runs (max_iterations at
least 1), the first three fire before the loop.  The remaining guard
(share_indices with an empty points1 cloud and a running loop) is a
modelling exclusion rather than an exception site: there numpy takes
the mean of an empty axis and propagates NaN translations, which a
field cannot represent, so the embedding reports numericDegeneracy; no
theorem in this development reaches that branch. -/
def icpCore (svd : SvdFn K) (n1 n2 : ℕ) (p1 p2 : Cloud K)
    (maxIter r1 r2 : ℕ) (tol : K) (share : Bool) (init : M4 K) :
    Except RegError (M4 K × ℕ) :=
  let mean := centroid n1 p1
  let zeroed := subtract_vectors (liftCloud p1) (homMean mean)
  if ¬share ∧ r1 = 0 then .error .divisionByZero
  else if ¬share ∧ r2 = 0 then .error .divisionByZero
  else
    let k1 := if share then 1 else n1 / r1
    let k2 := if share then 1 else n2 / r2
    if k2 = 0 then .error .sliceStepZero
    else if 0 < maxIter ∧ k1 = 0 then .error .sliceStepZero
    else if share ∧ 0 < maxIter ∧ n1 = 0 then .error .numericDegeneracy
    else if share ∧ 0 < maxIter ∧ n2 < n1 then .error .indexOutOfBounds
    else
      let f := icpStepFn svd share (sliceCount n1 k1) (sliceCount n2 k2)
        (sliceCols k1 zeroed) (sliceCols k2 p2)
      let r := icpLoop f tol maxIter init none
      .ok (finalize r.1 mean, r.2)

/-- MatrixHelpers.icp as the caller sees it: the final transform. -/
def icp (svd : SvdFn K) (n1 n2 : ℕ) (p1 p2 : Cloud K)
    (maxIter r1 r2 : ℕ) (tol : K) (share : Bool) (init : M4 K) :
    Except RegError (M4 K) :=
  (icpCore svd n1 n2 p1 p2 maxIter r1 r2 tol share init).map Prod.fst

/-- The number of ICP loop passes executed by a successful call. -/
def icpSteps (svd : SvdFn K) (n1 n2 : ℕ) (p1 p2 : Cloud K)
    (maxIter r1 r2 : ℕ) (tol : K) (share : Bool) (init : M4 K) :
    Except RegError ℕ :=
  (icpCore svd n1 n2 p1 p2 maxIter r1 r2 tol share init).map Prod.snd

/-- The content of the caller's initial_rt array after a call to
MatrixHelpers.icp.  In the Python source, rt initially aliases
initial_rt; every loop pass rebinds rt to a fresh array
(rt = rt_step @ rt), but when the loop body never runs
(max_iterations = 0) the in-place update rt[:3, 3] -= ... on line 153
writes through the alias into the caller's array (and, for the default
argument, into the module-level shared identity).  When an exception is
raised before line 153 the array is also left untouched. -/
def icpInitAfter (n1 n2 : ℕ) (p1 : Cloud K) (maxIter r1 r2 : ℕ)
    (share : Bool) (init : M4 K) : M4 K :=
  if ¬share ∧ (r1 = 0 ∨ r2 = 0) then init
  else if (if share then 1 else n2 / r2) = 0 then init
  else if maxIter = 0 then finalize init (centroid n1 p1)
  else init

/-- Modelled from the claim's words for the refinement statement about
the ICP loop: the accumulated transform after k passes, composed by
left multiplication (new accumulated = incremental * accumulated). -/
def rtSeq (f : M4 K → M4 K) (init : M4 K) : ℕ → M4 K
  | 0 => init
  | k + 1 => f (rtSeq f init k) * rtSeq f init k

/-- Modelled from the claim's words: the scalar convergence metric of
pass k, the sum of squared entries of (Identity - incremental). -/
def errSeq (f : M4 K → M4 K) (init : M4 K) (k : ℕ) : K :=
  sumSq4 (1 - f (rtSeq f init k))

/-- Modelled from the claim's words: pass p observes a convergence-
metric change below the tolerance (pass 0 compares against infinity
and can never stop). -/
def stopPred (e : ℕ → K) (tol : K) (p : ℕ) : Bool :=
  decide (1 ≤ p) && decide (|e (p - 1) - e p| < tol)

/-- Modelled from the claim's words: the index of the accumulated
transform the loop returns; iteration stops right after the first pass
whose metric change drops below the tolerance, and otherwise after
max_iterations passes. -/
def icpStopIndex (e : ℕ → K) (tol : K) (maxIter : ℕ) : ℕ :=
  match (List.range maxIter).find? (stopPred e tol) with
  | some p => p + 1
  | none => maxIter

/-- The prev_error slot of the loop as a function of the number of
passes already executed: np.inf (none) before the first pass, and the
metric of the previous pass afterwards. -/
def prevO (e : ℕ → K) : ℕ → Option K
  | 0 => none
  | k + 1 => some (e k)

/-- Generalization of icpStopIndex to a loop entered after k passes
with fuel remaining passes: the index of the accumulated transform the
loop will return. -/
def stopFrom (e : ℕ → K) (tol : K) (k fuel : ℕ) : ℕ :=
  match (List.range' k fuel).find? (stopPred e tol) with
  | some p => p + 1
  | none => k + fuel

/-- MatrixHelpers.angle_between_rotations:
arccos((trace(R1.T @ R2) - 1) / 2).  The arguments reaching it in this
core are 3x3, so the [:3, :3] views are identities. -/
noncomputable def angle_between_rotations (r1 r2 : M3 ℝ) : ℝ :=
  Real.arccos (((r1ᵀ * r2).trace - 1) / 2)

/-- np.std: the square root of the mean squared deviation from the
mean. -/
noncomputable def npStd (xs : List ℝ) : ℝ :=
  Real.sqrt ((xs.map (fun x => (x - xs.sum / xs.length) ^ 2)).sum / xs.length)

/-- np.linalg.norm of a 3-vector. -/
noncomputable def vecNorm3 (t : Fin 3 → ℝ) : ℝ :=
  Real.sqrt (∑ i : Fin 3, t i ^ 2)

/-- MatrixHelpers.average_matrices: the rotation blocks are averaged
entrywise and reprojected through the SVD (u @ v_T), the translations
averaged arithmetically; with compute_std the standard deviation of the
angles between each rotation and the average, and the standard
deviation of the translation norms, are also returned. -/
noncomputable def average_matrices (svd : SvdFn ℝ) (mats : List (M4 ℝ))
    (compute_std : Bool) : M4 ℝ × Option (ℝ × ℝ) :=
  let N : ℝ := mats.length
  let rotationsMean : M3 ℝ := Matrix.of fun i j => ((mats.map rot).sum) i j / N
  let u := (svd rotationsMean).1
  let vT := (svd rotationsMean).2.2
  let averageRotation := u * vT
  let averageTranslation := fun i => ((mats.map fun T => trans T i).sum) / N
  let out := homOf averageRotation averageTranslation
  if compute_std then
    let errorAngles := mats.map fun T => angle_between_rotations (rot T) averageRotation
    let rotationStd := npStd errorAngles
    let translationStd := npStd (mats.map fun T => vecNorm3 (trans T))
    (out, some (rotationStd, translationStd))
  else (out, none)

/-- A cloud whose rows are given by three lists (columns beyond the
stated count read 0). -/
def cloudOf (r0 r1 r2 : List K) : Cloud K :=
  fun i j => (![r0, r1, r2] i).getD j 0

/-- Six points spanning 3 dimensions with centroid 0; the second cloud
of the reflective configuration. -/
def refl1 : Cloud ℚ :=
  cloudOf [1, -1, 0, 0, 0, 0] [0, 0, 1, -1, 0, 0] [0, 0, 0, 0, 1, -1]

/-- Six points whose cross-covariance against refl1 is
diag(2, 1, -1), a matrix of negative determinant: every SVD of it has
det(u @ v_T) = -1. -/
def refl2 : Cloud ℚ :=
  cloudOf [1, -1, 0, 0, 0, 0] [0, 0, 1/2, -1/2, 0, 0] [0, 0, 0, 0, -1/2, 1/2]

/-- A valid SVD of diag(2, 1, -1): u = 1, s = (2, 1, 1),
v_T = diag(1, 1, -1). -/
def svdRefl : SvdFn ℚ :=
  fun _ => (1, ![2, 1, 1], Matrix.diagonal ![1, 1, -1])

/-- Six points with centroid (1, 0, 0) whose centered Gram matrix is
2I (positive definite with an exact rational SVD). -/
def cloudSelf : Cloud ℚ :=
  cloudOf [2, 0, 1, 1, 1, 1] [0, 0, 1, -1, 0, 0] [0, 0, 0, 0, 1, -1]

/-- A valid SVD of 2I: u = 1, s = (2, 2, 2), v_T = 1. -/
def svdSelf : SvdFn ℚ :=
  fun _ => (1, ![2, 2, 2], 1)

/-- Two correspondence pairs (fewer than the three the specification
requires): both clouds are the pair (1,0,0), (-1,0,0), with
cross-covariance diag(2, 0, 0). -/
def cloudTwo : Cloud ℚ :=
  cloudOf [1, -1] [0, 0] [0, 0]

/-- A valid SVD of diag(2, 0, 0): u = 1, s = (2, 0, 0), v_T = 1. -/
def svdTwo : SvdFn ℚ :=
  fun _ => (1, ![2, 0, 0], 1)

/-- The trivial SVD oracle over the reals assigning the factorization
1 * diag(1,1,1) * 1, valid at the identity matrix. -/
def svdOne : SvdFn ℝ :=
  fun _ => (1, fun _ => 1, 1)

/-- A 90-degree rotation about the z axis. -/
def rotZ : M3 ℚ :=
  !![0, -1, 0; 1, 0, 0; 0, 0, 1]

/-- A concrete rigid transform: 90-degree z rotation with translation
(1, 2, 3). -/
def rigidZ : M4 ℚ :=
  homOf rotZ ![1, 2, 3]

/-- A one-point query cloud at the origin. -/
def queryOne : Cloud ℚ :=
  cloudOf [0] [0] [0]

/-- A two-point reference cloud: (1, 0, 0) and (0, 0, 0). -/
def refCloudTwo : Cloud ℚ :=
  cloudOf [1, 0] [0, 0] [0, 0]

theorem homOf_cs_cs (r : M3 K) (t : Fin 3 → K) (i j : Fin 3) :
    homOf r t i.castSucc j.castSucc = r i j := by
  simp [homOf, Fin.coe_castSucc, i.isLt, j.isLt, Fin.eta]

theorem homOf_cs_last (r : M3 K) (t : Fin 3 → K) (i : Fin 3) :
    homOf r t i.castSucc (Fin.last 3) = t i := by
  simp [homOf, Fin.coe_castSucc, Fin.val_last, i.isLt, Fin.eta]

theorem homOf_last_cs (r : M3 K) (t : Fin 3 → K) (j : Fin 3) :
    homOf r t (Fin.last 3) j.castSucc = 0 := by
  simp [homOf, Fin.coe_castSucc, Fin.val_last, Nat.ne_of_lt j.isLt]

theorem homOf_last_last (r : M3 K) (t : Fin 3 → K) :
    homOf r t (Fin.last 3) (Fin.last 3) = 1 := by
  simp [homOf, Fin.val_last]

theorem rot_homOf (r : M3 K) (t : Fin 3 → K) : rot (homOf r t) = r := by
  ext i j
  simp [rot, homOf_cs_cs]

theorem trans_homOf (r : M3 K) (t : Fin 3 → K) : trans (homOf r t) = t := by
  funext i
  simp [trans, homOf_cs_last]

theorem one_M4_cs_cs (i j : Fin 3) :
    (1 : M4 K) i.castSucc j.castSucc = (1 : M3 K) i j := by
  simp [Matrix.one_apply, Fin.castSucc_inj]

theorem rot_one : rot (1 : M4 K) = 1 := by
  ext i j
  simp [rot, one_M4_cs_cs]

theorem trans_one : trans (1 : M4 K) = 0 := by
  funext i
  simp [trans, Matrix.one_apply, (Fin.castSucc_lt_last i).ne]

theorem homOf_one_zero : homOf (1 : M3 K) 0 = (1 : M4 K) := by
  ext i j
  induction i using Fin.lastCases with
  | last =>
    induction j using Fin.lastCases with
    | last => simp [homOf_last_last, Matrix.one_apply]
    | cast j3 =>
      simp [homOf_last_cs, Matrix.one_apply, (Fin.castSucc_lt_last j3).ne']
  | cast i3 =>
    induction j using Fin.lastCases with
    | last =>
      simp [homOf_cs_last, Matrix.one_apply, (Fin.castSucc_lt_last i3).ne]
    | cast j3 => simp [homOf_cs_cs, one_M4_cs_cs]

/-- C5: applying the rigid inversion (transpose_homogenous_matrix)
twice to a valid rigid transform returns the transform exactly. -/
theorem c5_inversion_roundtrip (T : M4 K) (h : IsRigid T) :
    transpose_homogenous_matrix (transpose_homogenous_matrix T) = T := by
  obtain ⟨horth, -, hT⟩ := h
  have hco : rot T * (rot T)ᵀ = 1 := Matrix.mul_eq_one_comm.mp horth
  conv_rhs => rw [hT]
  unfold transpose_homogenous_matrix
  rw [rot_homOf, trans_homOf, Matrix.transpose_transpose]
  funext i
  rw [show (fun i => -(((rot T)ᵀ *ᵥ trans T) i)) = -((rot T)ᵀ *ᵥ trans T) from rfl]
  rw [Matrix.mulVec_neg, Matrix.mulVec_mulVec, hco, Matrix.one_mulVec]
  simp

theorem isRigid_rigidZ : IsRigid rigidZ := by
  refine ⟨?_, ?_, ?_⟩
  · simp only [rigidZ, rot_homOf]
    ext i j
    fin_cases i <;> fin_cases j <;>
      simp [rotZ, Matrix.mul_apply, Fin.sum_univ_three, Matrix.one_apply,
        Matrix.cons_val_zero, Matrix.cons_val_one, Matrix.cons_val_two,
        Matrix.vecHead, Matrix.vecTail]
  · simp only [rigidZ, rot_homOf]
    norm_num [rotZ, Matrix.det_fin_three]
  · simp only [rigidZ, rot_homOf, trans_homOf]

theorem c5_witness :
    IsRigid rigidZ ∧
      transpose_homogenous_matrix (transpose_homogenous_matrix rigidZ) = rigidZ :=
  ⟨isRigid_rigidZ, c5_inversion_roundtrip rigidZ isRigid_rigidZ⟩

/-- C7: calling the nearest-neighbor operation with a non-empty query
set and an empty reference set fails: the first np.min reduces a
zero-size array, embedded as the typed EmptyReferenceSet failure. -/
theorem c7_empty_reference (n : ℕ) (src dst : Cloud K) (h : 1 ≤ n) :
    nearest_neighbor n 0 src dst = .error .emptyReferenceSet := by
  unfold nearest_neighbor
  rw [if_neg (by omega), if_pos rfl]

theorem c7_witness :
    nearest_neighbor 1 0 queryOne queryOne = Except.error RegError.emptyReferenceSet :=
  c7_empty_reference 1 queryOne queryOne le_rfl

/-- C4 (amended): whenever the loop runs at least one pass
(max_iterations at least 1), the caller's initial_rt array is unchanged
by the call, because rt is rebound to a fresh array before the in-place
update on line 153; in particular the shared default identity is never
corrupted in that regime. -/
theorem c4_amended (n1 n2 : ℕ) (p1 : Cloud K) (maxIter r1 r2 : ℕ)
    (share : Bool) (init : M4 K) (h : 1 ≤ maxIter) :
    icpInitAfter n1 n2 p1 maxIter r1 r2 share init = init := by
  unfold icpInitAfter
  have hm : ¬maxIter = 0 := by omega
  rw [if_neg hm]
  simp only [ite_self]

theorem c4_witness :
    icpInitAfter 6 6 cloudSelf 1 3000 3000 true (1 : M4 ℚ) = 1 :=
  c4_amended 6 6 cloudSelf 1 3000 3000 true 1 le_rfl

/-- C4 (counterexample): a call with max_iterations = 0 leaves rt
aliased to the caller's initial_rt, and line 153 then mutates that
array in place: after the call the (0, 3) entry of the supplied
identity has become minus the centroid's first coordinate. -/
theorem c4_counterexample :
    icpInitAfter 6 6 cloudSelf 0 3000 3000 true (1 : M4 ℚ) ≠ 1 := by
  have hval : icpInitAfter 6 6 cloudSelf 0 3000 3000 true (1 : M4 ℚ)
      = finalize 1 (centroid 6 cloudSelf) := by
    simp [icpInitAfter]
  rw [hval]
  intro h
  have h03 := congrFun (congrFun h 0) 3
  norm_num [finalize, Fin.sum_univ_three, Matrix.one_apply, Fin.ext_iff,
    centroid, cloudSelf, cloudOf, Finset.sum_range_succ, List.getD,
    Matrix.cons_val_zero, Matrix.cons_val_one, Matrix.cons_val_two,
    Matrix.vecHead, Matrix.vecTail,
    show ((3 : Fin 4) : ℕ) = 3 from rfl,
    show ((0 : Fin 4) : ℕ) = 0 from rfl] at h03

theorem svd_rot_orthogonal {h u : M3 K} {s : Fin 3 → K} {vT : M3 K}
    (hs : IsSVD h u s vT) : (u * vT) * (u * vT)ᵀ = 1 := by
  obtain ⟨hu, hv, -, -, -⟩ := hs
  have hu2 : u * uᵀ = 1 := Matrix.mul_eq_one_comm.mp hu
  rw [Matrix.transpose_mul, Matrix.mul_assoc, ← Matrix.mul_assoc vT vTᵀ uᵀ,
    hv, Matrix.one_mul, hu2]

/-- C6 (amended): the Kabsch solver performs no input validation: with
exactly two correspondence pairs it returns a homogeneous transform
normally (orthogonal rotation block, bottom row (0,0,0,1)) instead of
failing with InsufficientCorrespondences. -/
theorem c6_amended (svd : SvdFn K) (p q : Cloud K)
    (hs : IsSVD (crossCov 2 p q) (svd (crossCov 2 p q)).1
      (svd (crossCov 2 p q)).2.1 (svd (crossCov 2 p q)).2.2) :
    (rot (compute_best_fit_transformation svd 2 p q))ᵀ *
        rot (compute_best_fit_transformation svd 2 p q) = 1 ∧
      compute_best_fit_transformation svd 2 p q =
        homOf (rot (compute_best_fit_transformation svd 2 p q))
          (trans (compute_best_fit_transformation svd 2 p q)) := by
  constructor
  · simp only [compute_best_fit_transformation, rot_homOf, Matrix.transpose_transpose]
    exact svd_rot_orthogonal hs
  · simp only [compute_best_fit_transformation, rot_homOf, trans_homOf]

theorem centroid_cloudTwo : centroid 2 cloudTwo = 0 := by
  funext i
  fin_cases i <;>
    norm_num [centroid, cloudTwo, cloudOf, Finset.sum_range_succ, List.getD,
      Matrix.cons_val_zero, Matrix.cons_val_one, Matrix.cons_val_two,
      Matrix.vecHead, Matrix.vecTail]

theorem crossCov_cloudTwo :
    crossCov 2 cloudTwo cloudTwo = Matrix.diagonal ![2, 0, 0] := by
  ext i j
  fin_cases i <;> fin_cases j <;>
    norm_num [crossCov, centered, centroid_cloudTwo, Matrix.diagonal,
      cloudTwo, cloudOf, Finset.sum_range_succ, List.getD, centroid,
      Fin.ext_iff, Matrix.cons_val_zero, Matrix.cons_val_one,
      Matrix.cons_val_two, Matrix.vecHead, Matrix.vecTail]

theorem isSVD_cloudTwo :
    IsSVD (crossCov 2 cloudTwo cloudTwo) 1 ![2, 0, 0] 1 := by
  refine ⟨by simp, by simp, ?_, ?_, ?_⟩
  · rw [Matrix.one_mul, Matrix.mul_one, crossCov_cloudTwo]
  · intro i
    fin_cases i <;> norm_num
  · intro i j hij
    fin_cases i <;> fin_cases j <;> simp_all [Fin.le_def]

/-- C6 (counterexample): called with exactly 2 equal-size
correspondence pairs the solver returns normally; at this concrete
input (both pair sets (1,0,0), (-1,0,0), with a valid SVD of the
cross-covariance diag(2,0,0)) the returned transform is the identity,
not an InsufficientCorrespondences failure. -/
theorem c6_counterexample :
    compute_best_fit_transformation svdTwo 2 cloudTwo cloudTwo = 1 ∧
      IsSVD (crossCov 2 cloudTwo cloudTwo) 1 ![2, 0, 0] 1 := by
  refine ⟨?_, isSVD_cloudTwo⟩
  simp only [compute_best_fit_transformation, svdTwo, Matrix.mul_one,
    Matrix.transpose_one, centroid_cloudTwo, Pi.zero_apply,
    Matrix.mulVec_zero, sub_zero]
  exact homOf_one_zero

theorem c6_witness :
    (rot (compute_best_fit_transformation svdTwo 2 cloudTwo cloudTwo))ᵀ *
        rot (compute_best_fit_transformation svdTwo 2 cloudTwo cloudTwo) = 1 ∧
      compute_best_fit_transformation svdTwo 2 cloudTwo cloudTwo =
        homOf (rot (compute_best_fit_transformation svdTwo 2 cloudTwo cloudTwo))
          (trans (compute_best_fit_transformation svdTwo 2 cloudTwo cloudTwo)) :=
  c6_amended svdTwo cloudTwo cloudTwo isSVD_cloudTwo

theorem finalize_zero (rt : M4 K) : finalize rt 0 = rt := by
  ext i j
  unfold finalize
  rw [Matrix.of_apply]
  split
  · simp
  · rfl

/-- C10 (amended): with share_indices false and both subsample targets
at least 1, an undersized points2 cloud (fewer columns than
nb_points2_required) makes the call fail for every max_iterations (the
zero-step points2 slice on line 125 raises before the loop), and an
undersized points1 cloud makes the call fail whenever at least one
pass runs (the zero-step points1 slice on line 129 raises in the first
pass); with max_iterations = 0 that slice is never evaluated, so the
undersized-points1 call returns a transform instead of failing. -/
theorem c10_undersized_cloud_fails (svd : SvdFn K) (n1 n2 : ℕ) (p1 p2 : Cloud K)
    (maxIter r1 r2 : ℕ) (tol : K) (init : M4 K)
    (hr1 : 1 ≤ r1) (hr2 : 1 ≤ r2) :
    (n2 < r2 →
      icp svd n1 n2 p1 p2 maxIter r1 r2 tol false init =
        Except.error RegError.sliceStepZero) ∧
    (n1 < r1 → 1 ≤ maxIter →
      icp svd n1 n2 p1 p2 maxIter r1 r2 tol false init =
        Except.error RegError.sliceStepZero) := by
  have hr1' : ¬r1 = 0 := by omega
  have hr2' : ¬r2 = 0 := by omega
  constructor
  · intro h2
    have hk2 : n2 / r2 = 0 := Nat.div_eq_of_lt h2
    simp [icp, icpCore, hr1', hr2', hk2, Except.map]
  · intro h1 hIter
    have hk1 : n1 / r1 = 0 := Nat.div_eq_of_lt h1
    have hm : 0 < maxIter := by omega
    by_cases hk2 : n2 / r2 = 0 <;>
      simp [icp, icpCore, hr1', hr2', hk1, hk2, hm, Except.map]

theorem c10_witness :
    icp svdTwo 2 2 cloudTwo cloudTwo 1 3 3 1 false (1 : M4 ℚ) =
      Except.error RegError.sliceStepZero :=
  (c10_undersized_cloud_fails svdTwo 2 2 cloudTwo cloudTwo 1 3 3 1 1
    (by omega) (by omega)).2 (by omega) (by omega)

/-- C10 (counterexample): the claim is false at max_iterations = 0:
with points1 undersized (2 columns, nb_points1_required = 3) and
points2 not undersized, the zero-step points1 slice on line 129 is
never evaluated because the loop body never runs, and the call returns
a transform (here the identity, since the cloud's centroid is zero)
instead of failing. -/
theorem c10_counterexample :
    icp svdTwo 2 2 cloudTwo cloudTwo 0 3 1 1 false (1 : M4 ℚ) =
      Except.ok 1 := by
  simp only [icp, icpCore]
  rw [if_neg (by simp), if_neg (by simp)]
  rw [if_neg (by norm_num), if_neg (by norm_num), if_neg (by norm_num),
    if_neg (by norm_num)]
  simp only [icpLoop, Except.map]
  rw [centroid_cloudTwo, finalize_zero]

theorem centroid_refl1 : centroid 6 refl1 = 0 := by
  funext i
  fin_cases i <;>
    norm_num [centroid, refl1, cloudOf, Finset.sum_range_succ, List.getD,
      Matrix.cons_val_zero, Matrix.cons_val_one, Matrix.cons_val_two,
      Matrix.vecHead, Matrix.vecTail]

theorem centroid_refl2 : centroid 6 refl2 = 0 := by
  funext i
  fin_cases i <;>
    norm_num [centroid, refl2, cloudOf, Finset.sum_range_succ, List.getD,
      Matrix.cons_val_zero, Matrix.cons_val_one, Matrix.cons_val_two,
      Matrix.vecHead, Matrix.vecTail]

theorem crossCov_refl :
    crossCov 6 refl1 refl2 = Matrix.diagonal ![2, 1, -1] := by
  ext i j
  simp only [crossCov, Matrix.of_apply, centered, centroid_refl1,
    centroid_refl2, Pi.zero_apply, sub_zero]
  fin_cases i <;> fin_cases j <;>
    norm_num [Matrix.diagonal, Fin.ext_iff, refl1, refl2, cloudOf,
      Finset.sum_range_succ, List.getD, Matrix.cons_val_zero,
      Matrix.cons_val_one, Matrix.cons_val_two, Matrix.vecHead,
      Matrix.vecTail]

theorem diagRefl_orth :
    (Matrix.diagonal ![1, 1, -1] : M3 K)ᵀ * Matrix.diagonal ![1, 1, -1] = 1 := by
  rw [Matrix.diagonal_transpose, Matrix.diagonal_mul_diagonal]
  ext i j
  fin_cases i <;> fin_cases j <;>
    norm_num [Matrix.diagonal, Matrix.one_apply, Fin.ext_iff]

theorem isSVD_refl :
    IsSVD (crossCov 6 refl1 refl2) 1 ![2, 1, 1] (Matrix.diagonal ![1, 1, -1]) := by
  refine ⟨by simp, ?_, ?_, ?_, ?_⟩
  · rw [Matrix.diagonal_transpose, Matrix.diagonal_mul_diagonal]
    ext i j
    fin_cases i <;> fin_cases j <;>
      norm_num [Matrix.diagonal, Matrix.one_apply, Fin.ext_iff]
  · have hv : (fun i => (![2, 1, 1] : Fin 3 → ℚ) i * ![1, 1, -1] i) = ![2, 1, -1] := by
      funext i
      fin_cases i <;> norm_num [Pi.mul_apply]
    rw [Matrix.one_mul, Matrix.diagonal_mul_diagonal, hv, crossCov_refl]
  · intro i
    fin_cases i <;> norm_num
  · intro i j hij
    fin_cases i <;> fin_cases j <;> simp_all [Fin.le_def]

/-- C1 (code bug): on a non-degenerate reflective configuration (the
cross-covariance is diag(2, 1, -1), so any SVD has det(u v_T) = -1)
the solver returns a rotation block that is orthogonal but has
determinant -1: the source has no reflection correction (no sign flip
of the last column of V), so det(R) = +1 fails exactly on the inputs
the claim singles out. -/
theorem c1_reflection_bug :
    IsSVD (crossCov 6 refl1 refl2) 1 ![2, 1, 1] (Matrix.diagonal ![1, 1, -1]) ∧
      rot (compute_best_fit_transformation svdRefl 6 refl1 refl2) =
        Matrix.diagonal ![1, 1, -1] ∧
      (rot (compute_best_fit_transformation svdRefl 6 refl1 refl2))ᵀ *
        rot (compute_best_fit_transformation svdRefl 6 refl1 refl2) = 1 ∧
      (rot (compute_best_fit_transformation svdRefl 6 refl1 refl2)).det = -1 := by
  have hrot : rot (compute_best_fit_transformation svdRefl 6 refl1 refl2) =
      Matrix.diagonal ![1, 1, -1] := by
    simp only [compute_best_fit_transformation, svdRefl, Matrix.one_mul,
      rot_homOf, Matrix.diagonal_transpose]
  refine ⟨isSVD_refl, hrot, ?_, ?_⟩
  · rw [hrot]
    exact diagRefl_orth
  · rw [hrot, Matrix.det_diagonal, Fin.prod_univ_three]
    norm_num

theorem argminAux_fst_le (tp : ℕ → K) (m : ℕ) : (argminAux tp m).1 ≤ m := by
  induction m with
  | zero => simp [argminAux]
  | succ m ih =>
    simp only [argminAux]
    split
    · exact le_rfl
    · exact ih.trans (Nat.le_succ m)

theorem argminAux_snd_eq (tp : ℕ → K) (m : ℕ) :
    (argminAux tp m).2 = tp (argminAux tp m).1 := by
  induction m with
  | zero => simp [argminAux]
  | succ m ih =>
    simp only [argminAux]
    split
    · rfl
    · exact ih

theorem argminAux_le (tp : ℕ → K) (m : ℕ) :
    ∀ j ≤ m, (argminAux tp m).2 ≤ tp j := by
  induction m with
  | zero =>
    intro j hj
    have hj0 : j = 0 := by omega
    subst hj0
    simp [argminAux]
  | succ m ih =>
    intro j hj
    simp only [argminAux]
    split
    · next hlt =>
        rcases Nat.lt_succ_iff_lt_or_eq.mp (Nat.lt_succ_of_le hj) with hj2 | hj2
        · exact le_of_lt (lt_of_lt_of_le hlt (ih j (by omega)))
        · subst hj2
          exact le_rfl
    · next hge =>
        rcases Nat.lt_succ_iff_lt_or_eq.mp (Nat.lt_succ_of_le hj) with hj2 | hj2
        · exact ih j (by omega)
        · subst hj2
          exact not_lt.mp hge

theorem argminAux_first (tp : ℕ → K) (m : ℕ) :
    ∀ j < (argminAux tp m).1, (argminAux tp m).2 < tp j := by
  induction m with
  | zero =>
    intro j hj
    simp [argminAux] at hj
  | succ m ih =>
    intro j hj
    simp only [argminAux] at hj ⊢
    split
    · next hlt =>
        rw [if_pos hlt] at hj
        exact lt_of_lt_of_le hlt (argminAux_le tp m j (by omega))
    · next hge =>
        rw [if_neg hge] at hj
        exact ih j hj

/-- C8: for every query point, nearest_neighbor returns the squared
Euclidean distance to a closest reference point together with its
index; the index is in range, achieves the minimum, and every earlier
reference index is strictly farther (np.argmin keeps the first
minimum). -/
theorem c8_nearest_neighbor (n m : ℕ) (src dst : Cloud K)
    (hn : 1 ≤ n) (hm : 1 ≤ m) :
    ∃ d ix, nearest_neighbor n m src dst = .ok (d, ix) ∧
      ∀ i, i < n → ix i < m ∧
        d i = ∑ k : Fin 3, (dst k (ix i) - src k i) ^ 2 ∧
        (∀ j, j < m → d i ≤ ∑ k : Fin 3, (dst k j - src k i) ^ 2) ∧
        (∀ j, j < ix i → d i < ∑ k : Fin 3, (dst k j - src k i) ^ 2) := by
  refine ⟨fun i => (argminAux (nnTp src dst i) (m - 1)).2,
          fun i => (argminAux (nnTp src dst i) (m - 1)).1, ?_, ?_⟩
  · unfold nearest_neighbor
    rw [if_neg (by omega), if_neg (by omega)]
  · intro i _
    refine ⟨?_, ?_, ?_, ?_⟩
    · exact lt_of_le_of_lt (argminAux_fst_le _ _) (by omega)
    · exact argminAux_snd_eq _ _
    · intro j hj
      exact argminAux_le _ _ j (by omega)
    · intro j hj
      exact argminAux_first _ _ j hj

theorem c8_witness :
    ∃ d ix, nearest_neighbor 1 2 queryOne refCloudTwo = .ok (d, ix) ∧
      ∀ i, i < 1 → ix i < 2 ∧
        d i = ∑ k : Fin 3, (refCloudTwo k (ix i) - queryOne k i) ^ 2 ∧
        (∀ j, j < 2 → d i ≤ ∑ k : Fin 3, (refCloudTwo k j - queryOne k i) ^ 2) ∧
        (∀ j, j < ix i → d i < ∑ k : Fin 3, (refCloudTwo k j - queryOne k i) ^ 2) :=
  c8_nearest_neighbor 1 2 queryOne refCloudTwo le_rfl (by omega)

theorem stopFrom_zero (e : ℕ → K) (tol : K) (k : ℕ) : stopFrom e tol k 0 = k := by
  simp [stopFrom]

theorem le_stopFrom (e : ℕ → K) (tol : K) (k fuel : ℕ) :
    k ≤ stopFrom e tol k fuel := by
  unfold stopFrom
  cases hf : (List.range' k fuel).find? (stopPred e tol) with
  | none => exact Nat.le_add_right k fuel
  | some p =>
    have hmem := List.mem_of_find?_eq_some hf
    rw [List.mem_range'_1] at hmem
    exact show k ≤ p + 1 by omega

theorem stopFrom_succ (e : ℕ → K) (tol : K) (k fuel : ℕ) :
    stopFrom e tol k (fuel + 1) =
      if stopPred e tol k then k + 1 else stopFrom e tol (k + 1) fuel := by
  unfold stopFrom
  rw [List.range'_succ]
  by_cases h : stopPred e tol k = true
  · rw [List.find?_cons_of_pos _ h, if_pos h]
  · rw [List.find?_cons_of_neg _ h, if_neg h]
    cases hf : (List.range' (k + 1) fuel).find? (stopPred e tol) <;> simp [hf]
    omega

theorem icpLoop_eq_rtSeq (f : M4 K → M4 K) (tol : K) (init : M4 K) :
    ∀ fuel k, icpLoop f tol fuel (rtSeq f init k) (prevO (errSeq f init) k) =
      (rtSeq f init (stopFrom (errSeq f init) tol k fuel),
        stopFrom (errSeq f init) tol k fuel - k) := by
  intro fuel
  induction fuel with
  | zero =>
    intro k
    rw [stopFrom_zero]
    simp [icpLoop]
  | succ fuel ih =>
    intro k
    rw [stopFrom_succ]
    cases k with
    | zero =>
      have h0 : stopPred (errSeq f init) tol 0 = false := by
        simp [stopPred]
      rw [h0]
      simp only [Bool.false_eq_true, if_false]
      have hs1 := le_stopFrom (errSeq f init) tol 1 fuel
      simp only [icpLoop, prevO]
      rw [show f (rtSeq f init 0) * rtSeq f init 0 = rtSeq f init 1 from rfl,
        show some (sumSq4 (1 - f (rtSeq f init 0))) = prevO (errSeq f init) 1 from rfl,
        ih 1]
      refine Prod.ext rfl ?_
      show stopFrom (errSeq f init) tol 1 fuel - 1 + 1 =
        stopFrom (errSeq f init) tol 1 fuel - 0
      omega
    | succ k0 =>
      simp only [icpLoop, prevO]
      rw [show sumSq4 (1 - f (rtSeq f init (k0 + 1))) =
        errSeq f init (k0 + 1) from rfl]
      by_cases hbr : |errSeq f init k0 - errSeq f init (k0 + 1)| < tol
      · have hsp : stopPred (errSeq f init) tol (k0 + 1) = true := by
          simp [stopPred, hbr]
        rw [hsp]
        simp only [if_true]
        rw [if_pos hbr]
        refine Prod.ext rfl ?_
        show 1 = k0 + 1 + 1 - (k0 + 1)
        omega
      · have hsp : stopPred (errSeq f init) tol (k0 + 1) = false := by
          simp [stopPred, hbr]
        rw [hsp]
        simp only [Bool.false_eq_true, if_false]
        rw [if_neg hbr]
        have hs2 := le_stopFrom (errSeq f init) tol (k0 + 2) fuel
        rw [show f (rtSeq f init (k0 + 1)) * rtSeq f init (k0 + 1) =
              rtSeq f init (k0 + 2) from rfl,
          show (some (errSeq f init (k0 + 1)) : Option K) =
              prevO (errSeq f init) (k0 + 2) from rfl,
          ih (k0 + 2)]
        refine Prod.ext rfl ?_
        show stopFrom (errSeq f init) tol (k0 + 2) fuel - (k0 + 2) + 1 =
          stopFrom (errSeq f init) tol (k0 + 2) fuel - (k0 + 1)
        omega

/-- C2: the ICP loop is exactly the claim-side recursion: the
accumulated transform is built by left multiplication
(new accumulated = incremental * accumulated), the convergence metric
is the sum of squared entries of (Identity - incremental), and the
result returned is the accumulated transform of the first pass whose
metric change drops below the tolerance (the first pass compares
against np.inf and never stops), or of pass max_iterations when no
pass converges.  The second component is the number of passes
executed. -/
theorem c2_icp_loop_characterization (f : M4 K → M4 K) (tol : K)
    (maxIter : ℕ) (init : M4 K) :
    icpLoop f tol maxIter init none =
      (rtSeq f init (icpStopIndex (errSeq f init) tol maxIter),
        icpStopIndex (errSeq f init) tol maxIter) := by
  have h := icpLoop_eq_rtSeq f tol init maxIter 0
  have hstop : stopFrom (errSeq f init) tol 0 maxIter =
      icpStopIndex (errSeq f init) tol maxIter := by
    unfold stopFrom icpStopIndex
    rw [List.range_eq_range']
    cases (List.range' 0 maxIter).find? (stopPred (errSeq f init) tol) <;> simp
  rw [hstop] at h
  exact h

theorem quadPos_det_ne_zero {A : M3 K} (h : QuadPos A) : A.det ≠ 0 := by
  intro h0
  obtain ⟨v, hv, hv0⟩ := Matrix.exists_mulVec_eq_zero_iff.mpr h0
  have hq := h v hv
  rw [hv0] at hq
  simp at hq

theorem quadPos_diagonal (d : Fin 3 → K) (hd : ∀ i, 0 < d i) :
    QuadPos (Matrix.diagonal d) := by
  intro x hx
  rw [show x ⬝ᵥ (Matrix.diagonal d *ᵥ x) = ∑ i : Fin 3, x i * (d i * x i) from by
    simp [Matrix.dotProduct, Matrix.mulVec_diagonal]]
  obtain ⟨i0, hi0⟩ : ∃ i, x i ≠ 0 := Function.ne_iff.mp hx
  refine Finset.sum_pos' ?_ ⟨i0, Finset.mem_univ i0, ?_⟩
  · intro i _
    have h1 : x i * (d i * x i) = d i * (x i * x i) := by ring
    rw [h1]
    exact mul_nonneg (hd i).le (mul_self_nonneg _)
  · have h1 : x i0 * (d i0 * x i0) = d i0 * (x i0 * x i0) := by ring
    rw [h1]
    exact mul_pos (hd i0) (mul_self_pos.mpr hi0)

theorem quadPos_congr {A B : M3 K} (hA : QuadPos A) (hB : B * Bᵀ = 1) :
    QuadPos (B * A * Bᵀ) := by
  intro x hx
  have hy : Bᵀ *ᵥ x ≠ 0 := by
    intro h0
    apply hx
    have h1 : B *ᵥ (Bᵀ *ᵥ x) = B *ᵥ (0 : Fin 3 → K) := by rw [h0]
    rwa [Matrix.mulVec_mulVec, hB, Matrix.one_mulVec, Matrix.mulVec_zero] at h1
  have hrw : x ⬝ᵥ ((B * A * Bᵀ) *ᵥ x) = (Bᵀ *ᵥ x) ⬝ᵥ (A *ᵥ (Bᵀ *ᵥ x)) := by
    rw [← Matrix.mulVec_mulVec, ← Matrix.mulVec_mulVec,
      Matrix.dotProduct_mulVec x B, ← Matrix.mulVec_transpose]
  rw [hrw]
  exact hA (Bᵀ *ᵥ x) hy

theorem quadPos_add {A B : M3 K} (hA : QuadPos A) (hB : QuadPos B) :
    QuadPos (A + B) := by
  intro x hx
  rw [Matrix.add_mulVec, Matrix.dotProduct_add]
  exact add_pos (hA x hx) (hB x hx)

/-- For a symmetric positive-definite matrix, every valid SVD has
u * v_T = 1 (the two orthogonal factors agree), so the Kabsch rotation
(u v_T) built from it is the identity. -/
theorem isSVD_posdef_uvT {A u : M3 K} {s : Fin 3 → K} {vT : M3 K}
    (hsym : Aᵀ = A) (hpd : QuadPos A) (hs : IsSVD A u s vT) :
    u * vT = 1 := by
  obtain ⟨hu, hv, hfac, hnn, -⟩ := hs
  have hu2 : u * uᵀ = 1 := Matrix.mul_eq_one_comm.mp hu
  have hv2 : vTᵀ * vT = 1 := Matrix.mul_eq_one_comm.mp hv
  have hdet : A.det ≠ 0 := quadPos_det_ne_zero hpd
  have hsne : ∀ i, s i ≠ 0 := by
    intro i hi0
    apply hdet
    rw [← hfac, Matrix.det_mul, Matrix.det_mul, Matrix.det_diagonal]
    rw [Finset.prod_eq_zero (Finset.mem_univ i) hi0]
    ring
  have hspos : ∀ i, 0 < s i := fun i => lt_of_le_of_ne (hnn i) (Ne.symm (hsne i))
  set D := Matrix.diagonal s with hD
  set S := vT * u * D with hS
  have hSA : S = vT * A * vTᵀ := by
    rw [← hfac]
    calc S = vT * u * D * 1 := by rw [Matrix.mul_one]
      _ = vT * u * D * (vT * vTᵀ) := by rw [hv]
      _ = vT * (u * D * vT) * vTᵀ := by noncomm_ring
  have hSsym : Sᵀ = S := by
    rw [hSA, Matrix.transpose_mul, Matrix.transpose_mul,
      Matrix.transpose_transpose, hsym]
    noncomm_ring
  have hDT : Dᵀ = D := Matrix.diagonal_transpose s
  have hS2 : S * S = D * D := by
    calc S * S = Sᵀ * S := by rw [hSsym]
      _ = D * (uᵀ * vTᵀ) * (vT * u * D) := by
          rw [hS, Matrix.transpose_mul, Matrix.transpose_mul, hDT]
      _ = D * (uᵀ * (vTᵀ * vT) * u) * D := by noncomm_ring
      _ = D * D := by
          rw [hv2, Matrix.mul_one, hu, Matrix.mul_one]
  have hcomm2 : S * (D * D) = (D * D) * S := by
    rw [← hS2, ← Matrix.mul_assoc]
  have hDD : D * D = Matrix.diagonal (fun i => s i * s i) := by
    rw [hD, Matrix.diagonal_mul_diagonal]
  have hentry : ∀ i j, S i j * (s j * s j) = (s i * s i) * S i j := by
    intro i j
    have h2 := congrFun (congrFun hcomm2 i) j
    rw [hDD] at h2
    simpa [Matrix.mul_diagonal, Matrix.diagonal_mul] using h2
  have hSD : S * D = D * S := by
    ext i j
    rw [show (S * D) i j = S i j * s j from by rw [hD, Matrix.mul_diagonal],
      show (D * S) i j = s i * S i j from by rw [hD, Matrix.diagonal_mul]]
    rcases eq_or_ne (S i j) 0 with h0 | h0
    · rw [h0, zero_mul, mul_zero]
    · have h2 := hentry i j
      rw [mul_comm (s i * s i) (S i j)] at h2
      have hsij : s j * s j = s i * s i := mul_left_cancel₀ h0 h2
      have hji : s j = s i := by
        rcases mul_self_eq_mul_self_iff.mp hsij with h | h
        · exact h
        · exfalso
          have := hspos i
          have := hspos j
          nlinarith
      rw [hji]
      ring
  have hfactor : (S - D) * (S + D) = 0 := by
    have hexp : (S - D) * (S + D) = S * S + S * D - D * S - D * D := by
      noncomm_ring
    rw [hexp, hS2, hSD]
    abel
  have hSpd : QuadPos S := by
    rw [hSA]
    exact quadPos_congr hpd hv
  have hDpd : QuadPos D := quadPos_diagonal s hspos
  have hSDunit : IsUnit (S + D).det :=
    isUnit_iff_ne_zero.mpr (quadPos_det_ne_zero (quadPos_add hSpd hDpd))
  have hSeqD : S = D := by
    have h1 : S - D = 0 := by
      calc S - D = (S - D) * ((S + D) * (S + D)⁻¹) := by
            rw [Matrix.mul_nonsing_inv _ hSDunit, Matrix.mul_one]
        _ = (S - D) * (S + D) * (S + D)⁻¹ := by rw [Matrix.mul_assoc]
        _ = 0 := by rw [hfactor, Matrix.zero_mul]
    exact sub_eq_zero.mp h1
  have hDdet : IsUnit D.det := by
    rw [hD, Matrix.det_diagonal]
    exact isUnit_iff_ne_zero.mpr (Finset.prod_ne_zero_iff.mpr fun i _ => hsne i)
  have hvTu : vT * u = 1 := by
    have h1 : vT * u * D = D := by rw [← hS, hSeqD]
    calc vT * u = vT * u * (D * D⁻¹) := by
          rw [Matrix.mul_nonsing_inv _ hDdet, Matrix.mul_one]
      _ = vT * u * D * D⁻¹ := by noncomm_ring
      _ = D * D⁻¹ := by rw [h1]
      _ = 1 := Matrix.mul_nonsing_inv _ hDdet
  exact Matrix.mul_eq_one_comm.mp hvTu

/-- For an orthogonal matrix, every valid SVD has all singular values
equal to 1, so u * v_T recovers the matrix itself; this is the exact
sense in which averaging N identical rotations returns that rotation. -/
theorem isSVD_orth_uvT {A u : M3 K} {s : Fin 3 → K} {vT : M3 K}
    (horth : Aᵀ * A = 1) (hs : IsSVD A u s vT) : u * vT = A := by
  obtain ⟨hu, hv, hfac, hnn, -⟩ := hs
  set D := Matrix.diagonal s with hD
  have hDT : Dᵀ = D := Matrix.diagonal_transpose s
  have h1 : vTᵀ * (D * D) * vT = 1 := by
    calc vTᵀ * (D * D) * vT
        = vTᵀ * (D * (uᵀ * u) * D) * vT := by rw [hu, Matrix.mul_one]
      _ = (vTᵀ * Dᵀ * uᵀ) * (u * D * vT) := by rw [hDT]; noncomm_ring
      _ = (u * D * vT)ᵀ * (u * D * vT) := by
          rw [Matrix.transpose_mul, Matrix.transpose_mul]
          noncomm_ring
      _ = Aᵀ * A := by rw [hfac]
      _ = 1 := horth
  have hD2 : D * D = 1 := by
    calc D * D = (vT * vTᵀ) * (D * D) * (vT * vTᵀ) := by
          rw [hv, Matrix.one_mul, Matrix.mul_one]
      _ = vT * (vTᵀ * (D * D) * vT) * vTᵀ := by noncomm_ring
      _ = vT * 1 * vTᵀ := by rw [h1]
      _ = 1 := by rw [Matrix.mul_one, hv]
  have hsone : ∀ i, s i = 1 := by
    intro i
    have h2 := congrFun (congrFun hD2 i) i
    rw [show (D * D) i i = s i * s i from by
        rw [hD, Matrix.diagonal_mul_diagonal, Matrix.diagonal_apply_eq],
      Matrix.one_apply_eq] at h2
    rcases mul_self_eq_one_iff.mp h2 with h | h
    · exact h
    · exfalso
      have := hnn i
      rw [h] at this
      linarith
  have hDone : D = 1 := by
    rw [hD, show s = fun _ => (1 : K) from funext hsone]
    exact Matrix.diagonal_one
  rw [← hfac, hDone, Matrix.mul_one]

theorem npStd_replicate (n : ℕ) (a : ℝ) : npStd (List.replicate n a) = 0 := by
  unfold npStd
  rcases Nat.eq_zero_or_pos n with rfl | hn
  · simp
  · have hne : (n : ℝ) ≠ 0 := Nat.cast_ne_zero.mpr (by omega)
    have hmean : (List.replicate n a).sum / ((List.replicate n a).length : ℝ) = a := by
      rw [List.sum_replicate, List.length_replicate, nsmul_eq_mul]
      field_simp
    rw [hmean, List.map_replicate]
    simp [List.sum_replicate]

/-- C3: averaging N identical copies of a rigid transform T with
compute_std returns T exactly, with zero rotation dispersion and zero
translation dispersion. -/
theorem c3_average_replicate (svd : SvdFn ℝ) (T : M4 ℝ) (N : ℕ) (hN : 1 ≤ N)
    (hT : IsRigid T)
    (hs : IsSVD (rot T) (svd (rot T)).1 (svd (rot T)).2.1 (svd (rot T)).2.2) :
    average_matrices svd (List.replicate N T) true = (T, some (0, 0)) := by
  obtain ⟨horth, -, hhom⟩ := hT
  have hne : (N : ℝ) ≠ 0 := Nat.cast_ne_zero.mpr (by omega)
  have hmean : (Matrix.of fun i j =>
      ((List.replicate N T).map rot).sum i j / ((List.replicate N T).length : ℝ))
      = rot T := by
    ext i j
    simp only [Matrix.of_apply, List.map_replicate, List.sum_replicate,
      List.length_replicate, Matrix.smul_apply, nsmul_eq_mul]
    field_simp
  have htrans : (fun i =>
      ((List.replicate N T).map fun T0 => trans T0 i).sum /
        ((List.replicate N T).length : ℝ)) = trans T := by
    funext i
    rw [List.map_replicate, List.sum_replicate, List.length_replicate,
      nsmul_eq_mul]
    field_simp
  have havg : (svd (rot T)).1 * (svd (rot T)).2.2 = rot T :=
    isSVD_orth_uvT horth hs
  simp only [average_matrices]
  rw [hmean, htrans, havg, ← hhom]
  rw [if_pos trivial]
  rw [List.map_replicate, List.map_replicate, npStd_replicate, npStd_replicate]

theorem c3_witness :
    average_matrices svdOne (List.replicate 1 (1 : M4 ℝ)) true =
      ((1 : M4 ℝ), some (0, 0)) := by
  have hrigid : IsRigid (1 : M4 ℝ) := by
    refine ⟨?_, ?_, ?_⟩
    · rw [rot_one, Matrix.transpose_one, Matrix.one_mul]
    · rw [rot_one, Matrix.det_one]
    · rw [rot_one, trans_one, homOf_one_zero]
  have hsvd : IsSVD (rot (1 : M4 ℝ)) (svdOne (rot 1)).1 (svdOne (rot 1)).2.1
      (svdOne (rot 1)).2.2 := by
    refine ⟨?_, ?_, ?_, ?_, ?_⟩
    · show (1 : M3 ℝ)ᵀ * 1 = 1
      rw [Matrix.transpose_one, Matrix.one_mul]
    · show (1 : M3 ℝ) * (1 : M3 ℝ)ᵀ = 1
      rw [Matrix.transpose_one, Matrix.one_mul]
    · show (1 : M3 ℝ) * Matrix.diagonal 1 * 1 = rot 1
      rw [rot_one, Matrix.mul_one, Matrix.one_mul]
      exact Matrix.diagonal_one
    · intro i
      show (0 : ℝ) ≤ 1
      norm_num
    · intro i j _
      show (1 : ℝ) ≤ 1
      exact le_rfl
  exact c3_average_replicate svdOne 1 1 le_rfl hrigid hsvd

theorem sub_lift_cs (p : Cloud K) (v : Fin 3 → K) (i : Fin 3) (j : ℕ) :
    subtract_vectors (liftCloud p) (homMean v) i.castSucc j = p i j - v i := by
  simp [subtract_vectors, liftCloud, homMean, Fin.coe_castSucc,
    Nat.ne_of_lt i.isLt, i.isLt, Fin.eta]

theorem sub_lift_last (p : Cloud K) (v : Fin 3 → K) (j : ℕ) :
    subtract_vectors (liftCloud p) (homMean v) (Fin.last 3) j = 1 := by
  simp [subtract_vectors, Fin.val_last]

theorem applyRT_one_sub (n : ℕ) (p : Cloud K) :
    applyRT 1 (subtract_vectors (liftCloud p) (homMean (centroid n p))) =
      centered n p := by
  funext i j
  rw [show applyRT 1 (subtract_vectors (liftCloud p) (homMean (centroid n p))) i j =
      ∑ k : Fin 4, (1 : M4 K) i.castSucc k *
        subtract_vectors (liftCloud p) (homMean (centroid n p)) k j from rfl]
  rw [show centered n p i j = p i j - centroid n p i from rfl]
  simp only [Matrix.one_apply, ite_mul, one_mul, zero_mul, Finset.sum_ite_eq,
    Finset.mem_univ, if_true]
  rw [sub_lift_cs]

theorem applyRT_trans_sub (n : ℕ) (p : Cloud K) :
    applyRT (homOf 1 (centroid n p))
        (subtract_vectors (liftCloud p) (homMean (centroid n p))) = p := by
  funext i j
  rw [show applyRT (homOf 1 (centroid n p))
        (subtract_vectors (liftCloud p) (homMean (centroid n p))) i j =
      ∑ k : Fin 4, homOf 1 (centroid n p) i.castSucc k *
        subtract_vectors (liftCloud p) (homMean (centroid n p)) k j from rfl]
  rw [Fin.sum_univ_castSucc]
  rw [homOf_cs_last, sub_lift_last, mul_one]
  have hterm : ∀ k : Fin 3, homOf (1 : M3 K) (centroid n p) i.castSucc k.castSucc *
      subtract_vectors (liftCloud p) (homMean (centroid n p)) k.castSucc j =
      (1 : M3 K) i k * (p k j - centroid n p k) := by
    intro k
    rw [homOf_cs_cs, sub_lift_cs]
  rw [Finset.sum_congr rfl fun k _ => hterm k]
  simp only [Matrix.one_apply, ite_mul, one_mul, zero_mul, Finset.sum_ite_eq,
    Finset.mem_univ, if_true]
  ring

theorem centroid_centered (n : ℕ) (hn : (n : K) ≠ 0) (p : Cloud K) :
    centroid n (centered n p) = 0 := by
  funext i
  show (∑ j ∈ Finset.range n, (p i j - centroid n p i)) / (n : K) = 0
  rw [Finset.sum_sub_distrib, Finset.sum_const, Finset.card_range, nsmul_eq_mul]
  rw [show centroid n p i = (∑ j ∈ Finset.range n, p i j) / (n : K) from rfl]
  field_simp

theorem centered_centered (n : ℕ) (hn : (n : K) ≠ 0) (p : Cloud K) :
    centered n (centered n p) = centered n p := by
  funext i j
  show centered n p i j - centroid n (centered n p) i = centered n p i j
  rw [centroid_centered n hn p]
  simp

theorem crossCov_centered_left (n : ℕ) (hn : (n : K) ≠ 0) (p q : Cloud K) :
    crossCov n (centered n p) q = crossCov n p q := by
  unfold crossCov
  rw [centered_centered n hn p]

theorem crossCov_self_symm (n : ℕ) (p : Cloud K) :
    (crossCov n p p)ᵀ = crossCov n p p := by
  ext i j
  show crossCov n p p j i = crossCov n p p i j
  simp only [crossCov, Matrix.of_apply]
  exact Finset.sum_congr rfl fun k _ => mul_comm _ _

theorem best_fit_eq_homOf (svd : SvdFn K) (n : ℕ) (p q : Cloud K)
    (huv : (svd (crossCov n p q)).1 * (svd (crossCov n p q)).2.2 = 1) :
    compute_best_fit_transformation svd n p q =
      homOf 1 (fun i => centroid n q i - centroid n p i) := by
  simp only [compute_best_fit_transformation]
  rw [huv, Matrix.transpose_one]
  funext i
  rw [Matrix.one_mulVec]

theorem sumSq4_zero : sumSq4 (0 : M4 K) = 0 := by
  simp [sumSq4]

omit [LinearOrderedField K] in
theorem sliceCols_one {r : Type} (p : r → ℕ → K) : sliceCols 1 p = p := by
  funext i j
  show p i (j * 1) = p i j
  rw [mul_one]

theorem sliceCount_one (n : ℕ) : sliceCount n 1 = n := by
  unfold sliceCount
  omega

theorem finalize_homOf (r : M3 K) (t mn : Fin 3 → K) :
    finalize (homOf r t) mn = homOf r (fun i => t i - (r *ᵥ mn) i) := by
  ext i j
  unfold finalize
  rw [Matrix.of_apply]
  induction i using Fin.lastCases with
  | last =>
    rw [if_neg (by simp [Fin.val_last])]
    induction j using Fin.lastCases with
    | last => rw [homOf_last_last, homOf_last_last]
    | cast j3 => rw [homOf_last_cs, homOf_last_cs]
  | cast i3 =>
    induction j using Fin.lastCases with
    | last =>
      rw [if_pos ⟨by simp [Fin.coe_castSucc, i3.isLt], by simp [Fin.val_last]⟩]
      rw [homOf_cs_last, homOf_cs_last]
      congr 1
      rw [show (r *ᵥ mn) i3 = ∑ k : Fin 3, r i3 k * mn k from rfl]
      exact Finset.sum_congr rfl fun k _ => by rw [homOf_cs_cs]
    | cast j3 =>
      rw [if_neg (by simp [Fin.coe_castSucc, Nat.ne_of_lt j3.isLt])]
      rw [homOf_cs_cs, homOf_cs_cs]

theorem finalize_homOf_one (mn : Fin 3 → K) :
    finalize (homOf 1 mn) mn = 1 := by
  rw [finalize_homOf]
  rw [show (fun i => mn i - ((1 : M3 K) *ᵥ mn) i) = (0 : Fin 3 → K) from by
    funext i
    rw [Matrix.one_mulVec, sub_self]
    rfl]
  exact homOf_one_zero

theorem icpStep_self_one (svd : SvdFn K) (n : ℕ) (p : Cloud K)
    (hnK : (n : K) ≠ 0)
    (huv : (svd (crossCov n p p)).1 * (svd (crossCov n p p)).2.2 = 1) :
    icpStepFn svd true n n
        (subtract_vectors (liftCloud p) (homMean (centroid n p))) p 1 =
      homOf 1 (centroid n p) := by
  show compute_best_fit_transformation svd n
    (applyRT 1 (subtract_vectors (liftCloud p) (homMean (centroid n p))))
    (fun c j => p c (id j)) = homOf 1 (centroid n p)
  rw [show (fun (c : Fin 3) (j : ℕ) => p c (id j)) = p from rfl]
  rw [applyRT_one_sub]
  have hcc : crossCov n (centered n p) p = crossCov n p p :=
    crossCov_centered_left n hnK p p
  have huv2 : (svd (crossCov n (centered n p) p)).1 *
      (svd (crossCov n (centered n p) p)).2.2 = 1 := by
    rw [hcc]
    exact huv
  rw [best_fit_eq_homOf svd n (centered n p) p huv2]
  rw [centroid_centered n hnK p]
  rw [show (fun i => centroid n p i - (0 : Fin 3 → K) i) = centroid n p from by
    funext i
    rw [Pi.zero_apply, sub_zero]]

theorem icpStep_self_fixed (svd : SvdFn K) (n : ℕ) (p : Cloud K)
    (huv : (svd (crossCov n p p)).1 * (svd (crossCov n p p)).2.2 = 1) :
    icpStepFn svd true n n
        (subtract_vectors (liftCloud p) (homMean (centroid n p))) p
        (homOf 1 (centroid n p)) = 1 := by
  show compute_best_fit_transformation svd n
    (applyRT (homOf 1 (centroid n p))
      (subtract_vectors (liftCloud p) (homMean (centroid n p))))
    (fun c j => p c (id j)) = 1
  rw [show (fun (c : Fin 3) (j : ℕ) => p c (id j)) = p from rfl]
  rw [applyRT_trans_sub]
  rw [best_fit_eq_homOf svd n p p huv]
  rw [show (fun i => centroid n p i - centroid n p i) = (0 : Fin 3 → K) from by
    funext i
    rw [sub_self]
    rfl]
  exact homOf_one_zero

/-- C9 (amended): ICP of a cloud against itself with share_indices,
the default identity initial transform, a positive tolerance and a
positive-definite centered covariance returns exactly the identity
transform, and the loop executes at most 3 passes (2 when the first
metric is already below the tolerance) rather than the single pass the
claim states: pass 1 yields the centering translation and can never
stop (prev_error is infinite), pass 2 yields the identity increment,
and pass 3 observes a zero metric change when pass 2 did not stop. -/
theorem c9_amended (svd : SvdFn K) (n : ℕ) (p : Cloud K)
    (maxIter r1 r2 : ℕ) (tol : K)
    (hn : 1 ≤ n) (htol : 0 < tol) (hmax : 3 ≤ maxIter)
    (hpd : QuadPos (crossCov n p p))
    (hs : IsSVD (crossCov n p p) (svd (crossCov n p p)).1
      (svd (crossCov n p p)).2.1 (svd (crossCov n p p)).2.2) :
    icp svd n n p p maxIter r1 r2 tol true 1 = Except.ok 1 ∧
      ∃ c, icpSteps svd n n p p maxIter r1 r2 tol true 1 = Except.ok c ∧ c ≤ 3 := by
  have hnK : (n : K) ≠ 0 := Nat.cast_ne_zero.mpr (by omega)
  have hn0 : ¬n = 0 := by omega
  have huv : (svd (crossCov n p p)).1 * (svd (crossCov n p p)).2.2 = 1 :=
    isSVD_posdef_uvT (crossCov_self_symm n p) hpd hs
  have hF1 := icpStep_self_one svd n p hnK huv
  have hFA := icpStep_self_fixed svd n p huv
  obtain ⟨mm, rfl⟩ : ∃ mm, maxIter = mm + 3 := ⟨maxIter - 3, by omega⟩
  have hloop :
      (icpLoop (icpStepFn svd true n n
          (subtract_vectors (liftCloud p) (homMean (centroid n p))) p)
        tol (mm + 3) 1 none).1 = homOf 1 (centroid n p) ∧
      (icpLoop (icpStepFn svd true n n
          (subtract_vectors (liftCloud p) (homMean (centroid n p))) p)
        tol (mm + 3) 1 none).2 ≤ 3 := by
    simp only [icpLoop]
    simp only [hF1, Matrix.mul_one, hFA, Matrix.one_mul, sub_self, sumSq4_zero,
      sub_zero, abs_zero]
    by_cases hbr : |sumSq4 (1 - homOf 1 (centroid n p))| < tol
    · rw [if_pos hbr]
      exact ⟨rfl, by norm_num⟩
    · rw [if_neg hbr, if_pos htol]
      exact ⟨rfl, le_rfl⟩
  have hcore : icpCore svd n n p p (mm + 3) r1 r2 tol true 1 =
      Except.ok (finalize
        ((icpLoop (icpStepFn svd true n n
            (subtract_vectors (liftCloud p) (homMean (centroid n p))) p)
          tol (mm + 3) 1 none).1) (centroid n p),
        (icpLoop (icpStepFn svd true n n
            (subtract_vectors (liftCloud p) (homMean (centroid n p))) p)
          tol (mm + 3) 1 none).2) := by
    simp only [icpCore, not_true, false_and, if_false, if_true, one_ne_zero,
      and_false, hn0, true_and, lt_self_iff_false, sliceCount_one, sliceCols_one]
  constructor
  · unfold icp
    rw [hcore]
    show Except.ok (finalize
      ((icpLoop (icpStepFn svd true n n
          (subtract_vectors (liftCloud p) (homMean (centroid n p))) p)
        tol (mm + 3) 1 none).1) (centroid n p)) = Except.ok 1
    rw [hloop.1, finalize_homOf_one]
  · refine ⟨(icpLoop (icpStepFn svd true n n
        (subtract_vectors (liftCloud p) (homMean (centroid n p))) p)
        tol (mm + 3) 1 none).2, ?_, hloop.2⟩
    unfold icpSteps
    rw [hcore]
    rfl

theorem icpLoop_self_count (G : M4 K → M4 K) (tol : K) (mm : ℕ) (A : M4 K)
    (hG1 : G 1 = A) (hGA : G A = 1)
    (htol : 0 < tol) (hbr : ¬|sumSq4 (1 - A)| < tol) :
    icpLoop G tol (mm + 3) 1 none = (A, 3) := by
  simp only [icpLoop]
  simp only [hG1, Matrix.mul_one, hGA, Matrix.one_mul, sub_self, sumSq4_zero,
    sub_zero, abs_zero]
  rw [if_neg hbr, if_pos htol]

theorem centroid_cloudSelf : centroid 6 cloudSelf = ![1, 0, 0] := by
  funext i
  fin_cases i <;>
    norm_num [centroid, cloudSelf, cloudOf, Finset.sum_range_succ, List.getD,
      Matrix.cons_val_zero, Matrix.cons_val_one, Matrix.cons_val_two,
      Matrix.vecHead, Matrix.vecTail]

theorem crossCov_cloudSelf :
    crossCov 6 cloudSelf cloudSelf = Matrix.diagonal ![2, 2, 2] := by
  ext i j
  simp only [crossCov, Matrix.of_apply, centered, centroid_cloudSelf]
  fin_cases i <;> fin_cases j <;>
    norm_num [Matrix.diagonal, Fin.ext_iff, cloudSelf, cloudOf,
      Finset.sum_range_succ, List.getD, Matrix.cons_val_zero,
      Matrix.cons_val_one, Matrix.cons_val_two, Matrix.vecHead, Matrix.vecTail]

theorem isSVD_cloudSelf :
    IsSVD (crossCov 6 cloudSelf cloudSelf) 1 ![2, 2, 2] 1 := by
  refine ⟨by simp, by simp, ?_, ?_, ?_⟩
  · rw [Matrix.one_mul, Matrix.mul_one, crossCov_cloudSelf]
  · intro i
    fin_cases i <;> norm_num
  · intro i j hij
    fin_cases i <;> fin_cases j <;> simp_all [Fin.le_def]

theorem quadPos_cloudSelf : QuadPos (crossCov 6 cloudSelf cloudSelf) := by
  rw [crossCov_cloudSelf]
  refine quadPos_diagonal _ ?_
  intro i
  fin_cases i <;> norm_num

theorem homOf_centroid_eval :
    homOf (1 : M3 ℚ) (centroid 6 cloudSelf) =
      Matrix.of ![![1,0,0,1], ![0,1,0,0], ![0,0,1,0], ![0,0,0,1]] := by
  rw [centroid_cloudSelf]
  ext i j
  fin_cases i <;> fin_cases j <;>
    norm_num [homOf, Matrix.one_apply, Fin.ext_iff, Matrix.cons_val_zero,
      Matrix.cons_val_one, Matrix.cons_val_two, Matrix.vecHead, Matrix.vecTail]

theorem sumSq4_centroid_eval :
    sumSq4 ((1 : M4 ℚ) - homOf 1 (centroid 6 cloudSelf)) = 1 := by
  rw [homOf_centroid_eval]
  norm_num [sumSq4, Fin.sum_univ_four, Matrix.sub_apply, Matrix.one_apply,
    Fin.ext_iff, Matrix.cons_val_zero, Matrix.cons_val_one,
    Matrix.cons_val_two, Matrix.vecHead, Matrix.vecTail,
    show ((3 : Fin 4) : ℕ) = 3 from rfl, show ((2 : Fin 4) : ℕ) = 2 from rfl,
    show ((1 : Fin 4) : ℕ) = 1 from rfl, show ((0 : Fin 4) : ℕ) = 0 from rfl]

theorem c9_witness :
    icp svdSelf 6 6 cloudSelf cloudSelf 100 3000 3000 (1 / 1000000) true 1 =
        Except.ok 1 ∧
      ∃ c, icpSteps svdSelf 6 6 cloudSelf cloudSelf 100 3000 3000 (1 / 1000000)
          true 1 = Except.ok c ∧ c ≤ 3 :=
  c9_amended svdSelf 6 cloudSelf 100 3000 3000 (1 / 1000000)
    (by omega) (by norm_num) (by omega) quadPos_cloudSelf isSVD_cloudSelf

/-- C9 (counterexample): aligning the concrete 6-point cloud cloudSelf
(centroid (1,0,0), centered covariance 2I) to itself with share_indices
and the default configuration executes exactly 3 loop passes, not 1:
pass 1 cannot stop against the infinite prev_error, and the first
metric (1, the squared centering translation) differs from the second
(0) by more than the 1e-6 tolerance. -/
theorem c9_counterexample :
    icpSteps svdSelf 6 6 cloudSelf cloudSelf 100 3000 3000 (1 / 1000000) true 1 =
      Except.ok 3 ∧ (3 : ℕ) ≠ 1 := by
  refine ⟨?_, by omega⟩
  have hnK : ((6 : ℕ) : ℚ) ≠ 0 := by norm_num
  have hn0 : ¬(6 : ℕ) = 0 := by norm_num
  have huv : (svdSelf (crossCov 6 cloudSelf cloudSelf)).1 *
      (svdSelf (crossCov 6 cloudSelf cloudSelf)).2.2 = 1 := by
    show (1 : M3 ℚ) * 1 = 1
    rw [Matrix.one_mul]
  have hF1 := icpStep_self_one svdSelf 6 cloudSelf hnK huv
  have hFA := icpStep_self_fixed svdSelf 6 cloudSelf huv
  have htol : (0 : ℚ) < 1 / 1000000 := by norm_num
  have hbr : ¬|sumSq4 ((1 : M4 ℚ) - homOf 1 (centroid 6 cloudSelf))| <
      (1 / 1000000 : ℚ) := by
    rw [sumSq4_centroid_eval]
    norm_num
  rw [show (100 : ℕ) = 97 + 3 from rfl]
  have hcore : icpCore svdSelf 6 6 cloudSelf cloudSelf (97 + 3) 3000 3000
      (1 / 1000000) true 1 =
      Except.ok (finalize
        ((icpLoop (icpStepFn svdSelf true 6 6
            (subtract_vectors (liftCloud cloudSelf) (homMean (centroid 6 cloudSelf)))
            cloudSelf) (1 / 1000000) (97 + 3) 1 none).1) (centroid 6 cloudSelf),
        (icpLoop (icpStepFn svdSelf true 6 6
            (subtract_vectors (liftCloud cloudSelf) (homMean (centroid 6 cloudSelf)))
            cloudSelf) (1 / 1000000) (97 + 3) 1 none).2) := by
    simp only [icpCore, not_true, false_and, if_false, if_true, one_ne_zero,
      and_false, hn0, true_and, lt_self_iff_false, sliceCount_one, sliceCols_one]
  unfold icpSteps
  rw [hcore, icpLoop_self_count _ _ 97 _ hF1 hFA htol hbr]
  rfl

end Shoulder
